import Mathlib

/-!
Verification of the PDF watcher (`pdf_watcher.py`): a shallow embedding of
the classifier (company / insurance-type detection), the metadata entry
builder, the metadata store (`MetaFileManager`), the watchdog event handlers
and the startup reconciliation pass, together with theorems settling the
frozen claims about them.

Modelling conventions:
* A PDF file is seen only through the Region Text Accessor, which the spec
  treats as an external leaf.  `PDFDoc` models a document as a page count
  plus two oracles: `regionText` gives, for an existing page and a bounding
  box, the raw text of the cropped region (`none` models an extraction
  exception, which the code catches and turns into `None`); `pageText`
  likewise for the whole page.  The `x_tolerance` parameter is threaded
  through to pdfplumber unchanged by the code, so it is folded into the
  oracles.  A file that cannot be opened is an oracle answering `none`
  everywhere.
* Python dicts preserve insertion order; updating an existing key keeps its
  position and inserting a new key appends.  `dictInsert` / `dictRemove`
  embed that.
* Disk writes by `save()` are recorded in an append-only `writes` log; the
  current on-disk index file is the last element of the log.
-/

namespace PdfWatcher

/-- Python `a in b` on strings, at the level of character lists:
`leadsChars n h` is true when `n` is an initial segment of `h`. -/
def leadsChars : List Char → List Char → Bool
| [], _ => true
| _ :: _, [] => false
| a :: as, b :: bs => a == b && leadsChars as bs

/-- Here `containsChars n h` is true when `n` occurs contiguously inside `h`
(the empty needle occurs in everything, as with Python `in`). -/
def containsChars (needle : List Char) : List Char → Bool
| [] => leadsChars needle []
| b :: bs => leadsChars needle (b :: bs) || containsChars needle bs

/-- Python `needle in hay` for strings: literal, case-sensitive substring
containment. -/
def strIn (needle hay : String) : Bool :=
  containsChars needle.data hay.data

/-- The whitespace characters Python `str.strip()` removes (the ASCII
ones; the configs and extracted text in play are ASCII-spaced). -/
def isPySpace (c : Char) : Bool :=
  c == ' ' || c == '\t' || c == '\n' || c == '\x0d' || c == '\x0b' || c == '\x0c'

/-- Drop leading whitespace from a character list. -/
def dropSpaces : List Char → List Char
| [] => []
| c :: cs => if isPySpace c then dropSpaces cs else c :: cs

/-- Python `s.strip()`: remove leading and trailing whitespace. -/
def pyStrip (s : String) : String :=
  ⟨(dropSpaces (dropSpaces s.data).reverse).reverse⟩

/-- ASCII lowercase of one character, as `str.lower()` maps it. -/
def lowerChar (c : Char) : Char :=
  if 'A' ≤ c && c ≤ 'Z' then Char.ofNat (c.toNat + 32) else c

/-- Python `s.lower()` (ASCII fragment, enough for file suffixes). -/
def pyLower (s : String) : String :=
  ⟨s.data.map lowerChar⟩

/-- Index of the last occurrence of a dot in a character list
(Python `name.rfind(chr(46))` restricted to found/not-found). -/
def rfindDot : List Char → Option Nat
| [] => none
| c :: cs =>
  match rfindDot cs with
  | some i => some (i + 1)
  | none => if c == '.' then some 0 else none

/-- Embeds `pathlib.PurePath.suffix` of a filename: the final extension with its
dot, nonempty exactly when the last dot sits strictly inside the name. -/
def pathSuffix (name : String) : String :=
  match rfindDot name.data with
  | some i =>
    if 0 < i && i + 1 < name.data.length then ⟨name.data.drop i⟩ else ""
  | none => ""

/-- Embeds `pathlib.PurePath.stem` of a filename: the name with its final
extension removed (same dot condition as `pathSuffix`). -/
def pathStem (name : String) : String :=
  match rfindDot name.data with
  | some i =>
    if 0 < i && i + 1 < name.data.length then ⟨name.data.take i⟩ else name
  | none => name

/-- A filesystem path, split as pathlib sees it: the parent directory and
the final component.  `parent` equality embeds `file_path.parent ==
self.watch_directory`. -/
structure FsPath where
  parent : String
  filename : String
deriving DecidableEq, Repr

/-- An axis-aligned bounding box as passed to `page.crop`.  Its numeric
values are opaque to the watcher logic, so they are carried as integers. -/
structure BBox where
  x0 : Int
  y0 : Int
  x1 : Int
  y1 : Int
deriving DecidableEq, Repr

/-- One entry of a profile's `coordinates` list, as a JSON object read with
`coord.get(key, default)`: every field may be absent. -/
structure Coord where
  x0 : Option Int := none
  y0 : Option Int := none
  x1 : Option Int := none
  y1 : Option Int := none
  page : Option Int := none
deriving DecidableEq, Repr

/-- The bounding box `detect_company` builds from a coordinate object,
with the code's `.get(key, 0)` defaults. -/
def coordBBox (c : Coord) : BBox :=
  ⟨c.x0.getD 0, c.y0.getD 0, c.x1.getD 0, c.y1.getD 0⟩

/-- The zero-based page index `detect_company` computes:
`coord.get(page, 1) - 1`. -/
def coordPageIdx (c : Coord) : Int :=
  c.page.getD 1 - 1

/-- One company profile from `companies.json`, as a JSON object read with
`config.get(...)`: each key may be absent.  The insurance-type map is an
insertion-ordered association list, as a Python dict iterates. -/
structure CompanyConfig where
  company : Option String := none
  coordinates : Option (List Coord) := none
  insurance_types : Option (List (String × List String)) := none
deriving DecidableEq, Repr

/-- Abstract PDF document as exposed by the Region Text Accessor.
`regionText p b = none` models pdfplumber raising during crop/extract on
existing page `p` (caught by the code); `some t` is the raw extracted text
with pdfplumber's `or`-empty-string already applied.  `pageText` is the
same for whole-page extraction. -/
structure PDFDoc where
  numPages : Nat
  regionText : Nat → BBox → Option String
  pageText : Nat → Option String

/-- A PDF file on disk: its path, its document content as seen through the
accessor, and the SHA-256 digest of its bytes (hashing is an external
primitive, so the digest is carried as data). -/
structure PDFFile where
  path : FsPath
  doc : PDFDoc
  fileHash : String

/-- Embeds `PDFMetadataExtractor.extract_text_from_region`: `none` when the
zero-based page index is out of range (`page_num >= len(pdf.pages) or
page_num < 0`) or extraction raises; otherwise the extracted text,
stripped. -/
def extract_text_from_region (doc : PDFDoc) (box : BBox) (page_num : Int) : Option String :=
  if page_num ≥ (doc.numPages : Int) || page_num < 0 then
    none
  else
    match doc.regionText page_num.toNat box with
    | none => none
    | some t => some (pyStrip t)

/-- Embeds `PDFMetadataExtractor.extract_full_page_text`: the whole text of a
page, the empty string when the page is out of range or extraction raises.
The code only ever calls it at its default `page_num = 0`. -/
def extract_full_page_text (doc : PDFDoc) (page_num : Nat) : String :=
  if page_num ≥ doc.numPages then
    ""
  else
    match doc.pageText page_num with
    | none => ""
    | some t => t

/-- Inner loop of `detect_company`: scan one profile's coordinate list in
order, skipping regions whose extraction returns `None`, and return the
company name at the first region whose text contains it. -/
def scanCoords (doc : PDFDoc) (company_name : String) : List Coord → Option String
| [] => none
| coord :: rest =>
  match extract_text_from_region doc (coordBBox coord) (coordPageIdx coord) with
  | none => scanCoords doc company_name rest
  | some text =>
    if strIn company_name text then some company_name
    else scanCoords doc company_name rest

/-- Embeds `PDFMetadataExtractor.detect_company`: iterate profiles in configured
order, each profile's regions in order, and return the first company whose
name occurs in the region's extracted text. -/
def detect_company (cfgs : List CompanyConfig) (doc : PDFDoc) : Option String :=
  match cfgs with
  | [] => none
  | cfg :: rest =>
    match scanCoords doc (cfg.company.getD "") (cfg.coordinates.getD []) with
    | some c => some c
    | none => detect_company rest doc

/-- The profile-lookup loop of `detect_insurance_type`:
first config whose `company` key equals the given name. -/
def findCompanyConfig (cfgs : List CompanyConfig) (company_name : String) : Option CompanyConfig :=
  match cfgs with
  | [] => none
  | cfg :: rest =>
    if cfg.company == some company_name then some cfg
    else findCompanyConfig rest company_name

/-- Inner phrase loop of `detect_insurance_type`: first phrase of one type
that occurs in the page text yields that type's id. -/
def scanPhrases (full_text type_id : String) : List String → Option String
| [] => none
| r :: rs =>
  if strIn r full_text then some type_id else scanPhrases full_text type_id rs

/-- Outer type loop of `detect_insurance_type`: first type (in configured
key order) with a matching phrase. -/
def scanTypes (full_text : String) : List (String × List String) → Option String
| [] => none
| (tid, rs) :: rest =>
  match scanPhrases full_text tid rs with
  | some t => some t
  | none => scanTypes full_text rest

/-- Embeds `PDFMetadataExtractor.detect_insurance_type`: `none` for a falsy
company (`if not company_name` — Python `None` or the empty string), else
look up the profile and scan its type map against the full first-page
text. -/
def detect_insurance_type (cfgs : List CompanyConfig) (doc : PDFDoc)
    (company_name : Option String) : Option String :=
  match company_name with
  | none => none
  | some cname =>
    if cname == "" then none
    else
      match findCompanyConfig cfgs cname with
      | none => none
      | some cfg =>
        scanTypes (extract_full_page_text doc 0) (cfg.insurance_types.getD [])

/-- One entry of the `.meta` index file. -/
structure MetaEntry where
  name : String
  file_hash : String
  company : String
  insurance_type : String
deriving DecidableEq, Repr

/-- Embeds `PDFMetadataExtractor.extract_metadata` (the spec's `build_entry`):
`name = Path(pdf_path).name`, digest from the hashing primitive, then the
two detections; `None` when either is falsy (`if not company or not
insurance_type`). -/
def extract_metadata (cfgs : List CompanyConfig) (f : PDFFile) : Option MetaEntry :=
  let name := f.path.filename
  let file_hash := f.fileHash
  let company := detect_company cfgs f.doc
  let insurance_type := detect_insurance_type cfgs f.doc company
  match company, insurance_type with
  | some c, some t =>
    if c == "" || t == "" then none
    else some ⟨name, file_hash, c, t⟩
  | _, _ => none

/-- Python dict assignment `d[k] = v` on an insertion-ordered association
list: an existing key keeps its position, a new key is appended. -/
def dictInsert (k : String) (v : MetaEntry) : List (String × MetaEntry) → List (String × MetaEntry)
| [] => [(k, v)]
| (k', v') :: rest =>
  if k' == k then (k, v) :: rest else (k', v') :: dictInsert k v rest

/-- Python `del d[k]` (first occurrence; keys are unique in a dict). -/
def dictRemove (k : String) : List (String × MetaEntry) → List (String × MetaEntry)
| [] => []
| (k', v') :: rest =>
  if k' == k then rest else (k', v') :: dictRemove k rest

/-- Python `k in d`. -/
def dictContains (k : String) : List (String × MetaEntry) → Bool
| [] => false
| (k', _) :: rest => k' == k || dictContains k rest

/-- The four lines `MetaFileManager.save` writes per entry, preceded by the
record separator line. -/
def renderEntry (e : MetaEntry) : String :=
  "---\n" ++ e.name ++ "\n" ++ e.file_hash ++ "\n" ++ e.company ++ "\n" ++ e.insurance_type ++ "\n"

/-- The full `.meta` file content `save` produces: every entry of the map,
in iteration order. -/
def renderEntries (es : List (String × MetaEntry)) : String :=
  es.foldl (fun acc p => acc ++ renderEntry p.2) ""

/-- Embeds the `MetaFileManager` state: the in-memory entry map (insertion-ordered,
like a Python dict) plus the log of every `save()` performed.  The current
on-disk index file is the last element of `writes`. -/
structure MetaStore where
  entries : List (String × MetaEntry)
  writes : List String
deriving DecidableEq, Repr

/-- The manager as constructed at startup: empty map, nothing written
(`load` is deliberately not called — the store starts fresh). -/
def initStore : MetaStore := ⟨[], []⟩

/-- Embeds `MetaFileManager.save`: serialize the whole map to the index file
(full rewrite). -/
def save (m : MetaStore) : MetaStore :=
  { m with writes := m.writes ++ [renderEntries m.entries] }

/-- The content of the index file after the recorded writes, `none` if no
write has happened yet. -/
def diskContent (m : MetaStore) : Option String :=
  m.writes.getLast?

/-- Embeds `MetaFileManager.add_or_update`: upsert keyed by `entry.name`, then
save when `save_immediately` is set. -/
def add_or_update (m : MetaStore) (entry : MetaEntry) (save_immediately : Bool) : MetaStore :=
  let m' := { m with entries := dictInsert entry.name entry m.entries }
  if save_immediately then save m' else m'

/-- Embeds `MetaFileManager.remove`: delete the key and save, but only when the
key is present — an absent name leaves both map and file untouched. -/
def remove (m : MetaStore) (name : String) : MetaStore :=
  if dictContains name m.entries then
    save { m with entries := dictRemove name m.entries }
  else m

/-- Embeds the private path filter of the event handler: suffix lowercases to `.pdf` and the
parent is the watched directory itself. -/
def is_pdf_in_root (watch_directory : String) (p : FsPath) : Bool :=
  pyLower (pathSuffix p.filename) == ".pdf" && p.parent == watch_directory

/-- Embeds the private processing step of the event handler: classify, and on success upsert with an
immediate save; on a classification miss leave the store untouched. -/
def process_pdf (cfgs : List CompanyConfig) (m : MetaStore) (f : PDFFile) : MetaStore :=
  match extract_metadata cfgs f with
  | none => m
  | some entry => add_or_update m entry true

/-- Embeds `PDFEventHandler.on_created` for a file event (the settle delay is real
time and not modelled): process the file when the path filter accepts it. -/
def on_created (cfgs : List CompanyConfig) (watch_directory : String)
    (m : MetaStore) (f : PDFFile) : MetaStore :=
  if is_pdf_in_root watch_directory f.path then process_pdf cfgs m f else m

/-- Embeds `PDFEventHandler.on_modified` for a file event: same body as
`on_created`. -/
def on_modified (cfgs : List CompanyConfig) (watch_directory : String)
    (m : MetaStore) (f : PDFFile) : MetaStore :=
  if is_pdf_in_root watch_directory f.path then process_pdf cfgs m f else m

/-- Embeds `PDFEventHandler.on_deleted` for a file event: for a top-level file
whose suffix lowercases to `.pdf`, remove the file's stem from the store. -/
def on_deleted (watch_directory : String) (m : MetaStore) (p : FsPath) : MetaStore :=
  if pyLower (pathSuffix p.filename) == ".pdf" && p.parent == watch_directory then
    remove m (pathStem p.filename)
  else m

/-- The filename filter of `watch_path.glob` with pattern `*.pdf`:
case-sensitive match, so exactly the names ending in lowercase `.pdf`. -/
def globPdf (name : String) : Bool :=
  leadsChars ".pdf".data.reverse name.data.reverse

/-- One iteration of the loop in `process_existing_pdfs`: on success upsert
without saving and bump the counter, on a miss (or a caught per-file
exception, which the total embedding has no separate case for) skip. -/
def pepStep (cfgs : List CompanyConfig) (acc : MetaStore × Nat) (f : PDFFile) : MetaStore × Nat :=
  match extract_metadata cfgs f with
  | none => acc
  | some entry => (add_or_update acc.1 entry false, acc.2 + 1)

/-- Embeds `process_existing_pdfs`: glob the directory listing for `*.pdf`,
classify each hit, upsert successes with `save_immediately=False`, and
save once at the end when at least one entry was produced. -/
def process_existing_pdfs (cfgs : List CompanyConfig) (m : MetaStore)
    (dirFiles : List PDFFile) : MetaStore :=
  let pdf_files := dirFiles.filter (fun f => globPdf f.path.filename)
  let r := pdf_files.foldl (pepStep cfgs) (m, 0)
  if r.2 > 0 then save r.1 else r.1

/-! ## Spec-side definitions (for refinement comparisons) -/

/-- One (profile, region) candidate of the company classifier, in the
spec's iteration order: the profile's company name, the zero-based page
index `region.page - 1` and the bounding box. -/
structure Candidate where
  cname : String
  pageIdx : Int
  box : BBox

/-- The flattened candidate list of spec 4.1: profiles in configured
order, and within each profile its regions in configured order. -/
def candidates (cfgs : List CompanyConfig) : List Candidate :=
  (cfgs.map (fun cfg =>
    (cfg.coordinates.getD []).map (fun coord =>
      Candidate.mk (cfg.company.getD "") (coordPageIdx coord) (coordBBox coord)))).flatten

/-- The spec's per-candidate test: query the accessor at
`(file, region.page - 1, region.bbox)`; a page-absent answer is a skip,
and a returned text yields the company exactly when its name occurs in
the text as a literal, case-sensitive substring. -/
def candidateCheck (doc : PDFDoc) (c : Candidate) : Option String :=
  match extract_text_from_region doc c.box c.pageIdx with
  | none => none
  | some t => if strIn c.cname t then some c.cname else none

/-- Spec 4.1 as worded: walk the candidates in order and return the first
company whose name occurs in its region's returned text; none when no
candidate matches. -/
def detect_company_spec (cfgs : List CompanyConfig) (doc : PDFDoc) : Option String :=
  (candidates cfgs).findSome? (candidateCheck doc)

/-- Spec 4.2 as worded: none for a `none` company; otherwise look the
profile up by exact name (none if absent), and return the first type — in
configured key order, phrases in order — one of whose phrases occurs in
the full first-page text. -/
def detect_insurance_type_spec (cfgs : List CompanyConfig) (doc : PDFDoc)
    (company_name : Option String) : Option String :=
  match company_name with
  | none => none
  | some cname =>
    match findCompanyConfig cfgs cname with
    | none => none
    | some cfg =>
      (cfg.insurance_types.getD []).findSome? (fun p =>
        if p.2.any (fun phrase => strIn phrase (extract_full_page_text doc 0)) then some p.1
        else none)

/-- Spec 4.2 amended at the falsy boundary: the classifier also returns
none immediately when the company name is the empty string (Python's
truthiness test), before any profile lookup. -/
def detect_insurance_type_amended (cfgs : List CompanyConfig) (doc : PDFDoc)
    (company_name : Option String) : Option String :=
  match company_name with
  | none => none
  | some cname =>
    if cname == "" then none
    else detect_insurance_type_spec cfgs doc (some cname)

/-- Spec 4.4 as worded for removal: delete the key if present and always
flush immediately — also when the name was absent. -/
def remove_spec (m : MetaStore) (name : String) : MetaStore :=
  save { m with entries := dictRemove name m.entries }

/-! ## Concrete fixtures -/

/-- A profile for company "Acme": one region on page 1, two insurance
types. -/
def cfgA : CompanyConfig :=
  { company := some "Acme"
    coordinates := some [{ x0 := some 0, y0 := some 0, x1 := some 100, y1 := some 50, page := some 1 }]
    insurance_types := some [("auto", ["car policy"]), ("home", ["house policy"])] }

/-- A one-page document whose region text contains "Acme" and whose page
text contains the phrase "car policy". -/
def docA : PDFDoc :=
  { numPages := 1
    regionText := fun _ _ => some "  Acme Inc  "
    pageText := fun _ => some "this is a car policy issued by Acme" }

/-- The file `/w/foo.pdf` with document `docA`. -/
def fileA : PDFFile := ⟨⟨"/w", "foo.pdf"⟩, docA, "hashA"⟩

/-- A degenerate profile whose company name is the empty string. -/
def cfgE : CompanyConfig :=
  { company := some ""
    insurance_types := some [("t", ["x"])] }

/-- A one-page document whose page text contains "x". -/
def docE : PDFDoc := ⟨1, fun _ _ => some "x here", fun _ => some "x here"⟩

/-! ## Claim theorems -/

/-- C1: the claim says an entry's `name` — the key under which the store
holds it — is the filename without its extension.  The code's
`extract_metadata` instead stores `Path(pdf_path).name`, the filename WITH
its extension: the entry built for `foo.pdf` is named "foo.pdf", while the
stem the deletion path (`remove` docstring, `on_deleted`) uses is "foo". -/
theorem C1_entry_name_keeps_extension :
    (extract_metadata [cfgA] fileA).map MetaEntry.name = some "foo.pdf"
    ∧ pathStem "foo.pdf" = "foo"
    ∧ ("foo.pdf" : String) ≠ "foo" := by
  decide

/-- C2: the claim says create-then-delete returns the index file to its
prior records.  On the code, the create stores the entry under "foo.pdf"
but the delete removes the stem "foo", which is absent — so the entry and
its record survive: starting from the empty store (index never written),
after processing the create and then the delete the map still holds the
entry and the index file still carries its record. -/
theorem C2_delete_does_not_undo_create :
    (on_deleted "/w" (process_pdf [cfgA] initStore fileA) ⟨"/w", "foo.pdf"⟩).entries
      = [("foo.pdf", MetaEntry.mk "foo.pdf" "hashA" "Acme" "auto")]
    ∧ diskContent (on_deleted "/w" (process_pdf [cfgA] initStore fileA) ⟨"/w", "foo.pdf"⟩)
      = some "---\nfoo.pdf\nhashA\nAcme\nauto\n"
    ∧ diskContent initStore = none := by
  decide

/-- C6 counterexample: removing a name absent from the store performs no
flush at all, contradicting "always flushes immediately" — on the fresh
empty store, `remove` writes nothing where the spec's removal would have
flushed the (empty) map. -/
theorem C6_counterexample :
    remove initStore "x" ≠ remove_spec initStore "x"
    ∧ (remove initStore "x").writes = []
    ∧ (remove_spec initStore "x").writes = [""] := by
  decide

/-- C6 amended: `remove(name)` deletes the key and flushes immediately
when the name is present; when the name is absent it does nothing — no
deletion and no flush. -/
theorem C6_remove_amended (m : MetaStore) (name : String) :
    (dictContains name m.entries = true →
      remove m name = save { m with entries := dictRemove name m.entries })
    ∧ (dictContains name m.entries = false → remove m name = m) := by
  constructor <;> intro h <;> simp [remove, h]

/-- Witness for C6 amended: on the empty store, "x" is absent and removal
is the identity. -/
theorem C6_remove_amended_witness :
    dictContains "x" initStore.entries = false ∧ remove initStore "x" = initStore :=
  ⟨by decide, (C6_remove_amended initStore "x").2 (by decide)⟩

/-- Inserting the same key-value pair twice is the same as once. -/
theorem dictInsert_idem (k : String) (v : MetaEntry) (l : List (String × MetaEntry)) :
    dictInsert k v (dictInsert k v l) = dictInsert k v l := by
  induction l with
  | nil => simp [dictInsert]
  | cons p rest ih =>
    obtain ⟨k', v'⟩ := p
    by_cases h : k' = k
    · subst h; simp [dictInsert]
    · simp [dictInsert, h, ih]

/-- C7: upsert is idempotent — a second flushing upsert of an identical
entry leaves both the on-disk index content and the in-memory map exactly
as after the first. -/
theorem C7_upsert_idempotent (m : MetaStore) (e : MetaEntry) :
    diskContent (add_or_update (add_or_update m e true) e true)
      = diskContent (add_or_update m e true)
    ∧ (add_or_update (add_or_update m e true) e true).entries
      = (add_or_update m e true).entries := by
  simp [add_or_update, save, diskContent, dictInsert_idem]

/-- Searching with `findSome?` over an appended list tries the left part first. -/
theorem findSome_append {α β : Type} (f : α → Option β) (l₁ l₂ : List α) :
    (l₁ ++ l₂).findSome? f =
      match l₁.findSome? f with
      | some b => some b
      | none => l₂.findSome? f := by
  induction l₁ with
  | nil => rfl
  | cons a l ih =>
    simp only [List.cons_append, List.findSome?]
    cases f a <;> simp [ih]

/-- The region loop of `detect_company` is the first-match scan of that
profile's candidates. -/
theorem scanCoords_eq_findSome (doc : PDFDoc) (name : String) (coords : List Coord) :
    scanCoords doc name coords =
      (coords.map (fun coord =>
        Candidate.mk name (coordPageIdx coord) (coordBBox coord))).findSome?
          (candidateCheck doc) := by
  induction coords with
  | cons coord rest ih =>
    simp only [List.map_cons, List.findSome?, scanCoords, candidateCheck]
    cases extract_text_from_region doc (coordBBox coord) (coordPageIdx coord) with
    | none => exact ih
    | some t =>
      by_cases h : strIn name t = true
      · simp [h]
      · simp [h, ih]
  | nil => rfl

/-- C3: `detect_company` is exactly the spec's first-match scan — profiles
in configured order, regions in configured order within each profile, the
accessor queried at `(file, region.page - 1, region.bbox)`, page-absent
regions skipped, the first company whose name occurs as a case-sensitive
literal substring of its region's text returned with no further candidate
examined, and none when no candidate matches. -/
theorem C3_detect_company_first_match (cfgs : List CompanyConfig) (doc : PDFDoc) :
    detect_company cfgs doc = detect_company_spec cfgs doc := by
  induction cfgs with
  | cons cfg rest ih =>
    have hc : candidates (cfg :: rest)
        = (cfg.coordinates.getD []).map (fun coord =>
            Candidate.mk (cfg.company.getD "") (coordPageIdx coord) (coordBBox coord))
          ++ candidates rest := by
      simp [candidates]
    simp only [detect_company, detect_company_spec, hc,
      findSome_append (candidateCheck doc), ← scanCoords_eq_findSome]
    cases scanCoords doc (cfg.company.getD "") (cfg.coordinates.getD []) with
    | none => exact ih
    | some c => rfl
  | nil => rfl

/-- C4 counterexample: for a profile whose configured company name is the
empty string, the code returns none for company `some ""` (Python
truthiness rejects the empty string before any lookup) while the claim's
lookup-then-scan behavior finds the profile and returns its first matching
type. -/
theorem C4_counterexample :
    detect_insurance_type [cfgE] docE (some "") = none
    ∧ detect_insurance_type_spec [cfgE] docE (some "") = some "t" := by
  decide

/-- The phrase loop of `detect_insurance_type` answers the type id exactly
when some phrase of the list occurs in the text. -/
theorem scanPhrases_eq_any (ft tid : String) (rs : List String) :
    scanPhrases ft tid rs = (if rs.any (fun r => strIn r ft) then some tid else none) := by
  induction rs with
  | cons r rest ih =>
    simp only [scanPhrases, List.any_cons]
    by_cases h : strIn r ft = true
    · simp [h]
    · simp [h, ih]
  | nil => rfl

/-- The type loop of `detect_insurance_type` is the first-match scan over
the type map. -/
theorem scanTypes_eq_findSome (ft : String) (l : List (String × List String)) :
    scanTypes ft l =
      l.findSome? (fun p => if p.2.any (fun r => strIn r ft) then some p.1 else none) := by
  induction l with
  | cons p rest ih =>
    obtain ⟨tid, rs⟩ := p
    simp only [scanTypes, List.findSome?, scanPhrases_eq_any]
    by_cases h : rs.any (fun r => strIn r ft) = true
    · simp [h]
    · simp [h, ih]
  | nil => rfl

/-- C4 amended: `detect_insurance_type` returns none immediately when the
given company is none or the empty string; otherwise it looks the profile
up by exact name (none if absent), extracts the full text of the first
page only, and returns the first type — type map in configured key order,
phrases in order — one of whose phrases occurs as a literal substring of
that text, none when no phrase matches. -/
theorem C4_detect_insurance_type_amended (cfgs : List CompanyConfig) (doc : PDFDoc)
    (company : Option String) :
    detect_insurance_type cfgs doc company
      = detect_insurance_type_amended cfgs doc company := by
  cases company with
  | none => rfl
  | some cname =>
    simp only [detect_insurance_type, detect_insurance_type_amended,
      detect_insurance_type_spec]
    by_cases h : (cname == "") = true
    · simp [h]
    · simp only [h, Bool.false_eq_true, if_false]
      cases findCompanyConfig cfgs cname with
      | none => rfl
      | some cfg => simp [scanTypes_eq_findSome]

/-- If no region of a profile yields a text containing the name, its
region loop finds nothing. -/
theorem scanCoords_none (doc : PDFDoc) (name : String) (coords : List Coord)
    (H : ∀ coord ∈ coords,
        Option.all (fun t => ! strIn name t)
          (extract_text_from_region doc (coordBBox coord) (coordPageIdx coord)) = true) :
    scanCoords doc name coords = none := by
  induction coords with
  | cons coord rest ih =>
    have h0 := H coord (by simp)
    have hr : ∀ c ∈ rest,
        Option.all (fun t => ! strIn name t)
          (extract_text_from_region doc (coordBBox c) (coordPageIdx c)) = true :=
      fun c hc => H c (by simp [hc])
    cases hx : extract_text_from_region doc (coordBBox coord) (coordPageIdx coord) with
    | none => simp [scanCoords, hx, ih hr]
    | some t =>
      rw [hx] at h0
      simp only [Option.all_some, Bool.not_eq_true'] at h0
      simp [scanCoords, hx, h0, ih hr]
  | nil => rfl

/-- If no configured company name occurs in any of its regions' extracted
texts, company detection fails. -/
theorem detect_company_none (cfgs : List CompanyConfig) (doc : PDFDoc)
    (H : ∀ cfg ∈ cfgs, ∀ coord ∈ cfg.coordinates.getD [],
        Option.all (fun t => ! strIn (cfg.company.getD "") t)
          (extract_text_from_region doc (coordBBox coord) (coordPageIdx coord)) = true) :
    detect_company cfgs doc = none := by
  induction cfgs with
  | cons cfg rest ih =>
    have h1 : scanCoords doc (cfg.company.getD "") (cfg.coordinates.getD []) = none :=
      scanCoords_none doc _ _ (H cfg (by simp))
    have hr : ∀ c ∈ rest, ∀ coord ∈ c.coordinates.getD [],
        Option.all (fun t => ! strIn (c.company.getD "") t)
          (extract_text_from_region doc (coordBBox coord) (coordPageIdx coord)) = true :=
      fun c hc => H c (by simp [hc])
    simp [detect_company, h1, ih hr]
  | nil => rfl

/-- C5: `extract_metadata` (the spec's `build_entry`) yields an entry only
when both detections succeed with nonempty identifiers — and in
particular, when no configured company name occurs as a substring of any
configured region's extracted text, it yields none. -/
theorem C5_build_entry_gate (cfgs : List CompanyConfig) (f : PDFFile) :
    (∀ e, extract_metadata cfgs f = some e →
        detect_company cfgs f.doc = some e.company ∧ e.company ≠ ""
        ∧ detect_insurance_type cfgs f.doc (detect_company cfgs f.doc) = some e.insurance_type
        ∧ e.insurance_type ≠ "")
    ∧ ((∀ cfg ∈ cfgs, ∀ coord ∈ cfg.coordinates.getD [],
          Option.all (fun t => ! strIn (cfg.company.getD "") t)
            (extract_text_from_region f.doc (coordBBox coord) (coordPageIdx coord)) = true) →
        extract_metadata cfgs f = none) := by
  constructor
  · intro e he
    simp only [extract_metadata] at he
    cases hc : detect_company cfgs f.doc with
    | none => rw [hc] at he; exact absurd he (by simp)
    | some c =>
      rw [hc] at he
      cases ht : detect_insurance_type cfgs f.doc (some c) with
      | none => rw [ht] at he; exact absurd he (by simp)
      | some t =>
        rw [ht] at he
        have he' : (if (c == "" || t == "") = true then none
            else some (MetaEntry.mk f.path.filename f.fileHash c t)) = some e := he
        by_cases hce : (c == "" || t == "") = true
        · rw [if_pos hce] at he'; exact absurd he' (by simp)
        · rw [if_neg hce] at he'
          simp only [Bool.or_eq_true, beq_iff_eq, not_or] at hce
          cases he'
          exact ⟨rfl, hce.1, rfl, hce.2⟩
  · intro H
    have hc : detect_company cfgs f.doc = none := detect_company_none cfgs f.doc H
    simp [extract_metadata, hc]

/-- A one-page document none of whose texts mentions "Acme". -/
def docN : PDFDoc := ⟨1, fun _ _ => some "nothing here", fun _ => some "nothing here"⟩

/-- The file `/w/bar.pdf` with document `docN`. -/
def fileN : PDFFile := ⟨⟨"/w", "bar.pdf"⟩, docN, "hashN"⟩

/-- Witness for C5: on `fileA` the built entry pins both detections to
nonempty identifiers, and on `fileN` — whose region text never contains
"Acme" — no entry is built. -/
theorem C5_build_entry_gate_witness :
    (detect_company [cfgA] fileA.doc = some "Acme" ∧ ("Acme" : String) ≠ ""
      ∧ detect_insurance_type [cfgA] fileA.doc (detect_company [cfgA] fileA.doc) = some "auto"
      ∧ ("auto" : String) ≠ "")
    ∧ extract_metadata [cfgA] fileN = none :=
  ⟨(C5_build_entry_gate [cfgA] fileA).1 (MetaEntry.mk "foo.pdf" "hashA" "Acme" "auto") (by decide),
   (C5_build_entry_gate [cfgA] fileN).2 (by decide)⟩

/-- The reconciliation loop, unrolled: it inserts exactly the successfully
classified entries into the map (in file order), performs no disk write,
and counts the successes. -/
theorem pep_foldl (cfgs : List CompanyConfig) (files : List PDFFile) (m : MetaStore) (k : Nat) :
    files.foldl (pepStep cfgs) (m, k)
      = (MetaStore.mk
          ((files.filterMap (extract_metadata cfgs)).foldl
            (fun es e => dictInsert e.name e es) m.entries)
          m.writes,
         k + (files.filterMap (extract_metadata cfgs)).length) := by
  induction files generalizing m k with
  | cons f rest ih =>
    cases hx : extract_metadata cfgs f with
    | none =>
      simp only [List.foldl_cons, List.filterMap_cons, hx, pepStep]
      exact ih m k
    | some e =>
      simp only [List.foldl_cons, List.filterMap_cons, hx, pepStep, add_or_update,
        if_neg (by simp : ¬ (false = true))]
      rw [ih]
      simp [Nat.add_assoc, Nat.add_comm]
  | nil => rfl

/-- C8: in the startup reconciliation pass, every successfully classified
`.pdf` file is upserted without an immediate save, every unclassified file
is skipped without aborting the pass, and the index file is written
exactly once at the end if and only if at least one entry was produced
(no write at all otherwise). -/
theorem C8_startup_pass (cfgs : List CompanyConfig) (m : MetaStore) (dirFiles : List PDFFile) :
    (process_existing_pdfs cfgs m dirFiles).entries
      = ((dirFiles.filter (fun f => globPdf f.path.filename)).filterMap
          (extract_metadata cfgs)).foldl (fun es e => dictInsert e.name e es) m.entries
    ∧ (process_existing_pdfs cfgs m dirFiles).writes
      = m.writes ++
          (if ((dirFiles.filter (fun f => globPdf f.path.filename)).filterMap
                (extract_metadata cfgs)).length = 0
           then []
           else [renderEntries
                  (((dirFiles.filter (fun f => globPdf f.path.filename)).filterMap
                    (extract_metadata cfgs)).foldl (fun es e => dictInsert e.name e es) m.entries)]) := by
  simp only [process_existing_pdfs, pep_foldl, Nat.zero_add]
  by_cases h : ((dirFiles.filter (fun f => globPdf f.path.filename)).filterMap
      (extract_metadata cfgs)).length = 0
  · simp [h, save]
  · have h' : ((dirFiles.filter (fun f => globPdf f.path.filename)).filterMap
        (extract_metadata cfgs)).length > 0 := Nat.pos_of_ne_zero h
    simp [h, h', save]

/-- Region extraction with a negative zero-based page index answers
page-absent, never an end-relative page. -/
theorem extract_negative_page (doc : PDFDoc) (box : BBox) (p : Int) (h : p < 0) :
    extract_text_from_region doc box p = none := by
  simp [extract_text_from_region, h]

/-- A region whose configured page number is 0 or negative is transparent
to the region loop: dropping it changes nothing. -/
theorem scanCoords_skip (doc : PDFDoc) (coord : Coord) (h : coord.page.getD 1 ≤ 0)
    (name : String) (pre post : List Coord) :
    scanCoords doc name (pre ++ coord :: post) = scanCoords doc name (pre ++ post) := by
  have hx : extract_text_from_region doc (coordBBox coord) (coordPageIdx coord) = none :=
    extract_negative_page doc _ _ (by simp only [coordPageIdx]; omega)
  induction pre with
  | nil => simp [scanCoords, hx]
  | cons c' pre' ih =>
    simp only [List.cons_append, scanCoords]
    cases extract_text_from_region doc (coordBBox c') (coordPageIdx c') with
    | none => exact ih
    | some t =>
      by_cases hs : strIn name t = true
      · simp [hs]
      · simp [hs, ih]

/-- A region whose configured page number is 0 or negative is transparent
to company detection, wherever in the configuration it sits. -/
theorem detect_company_skip (doc : PDFDoc) (coord : Coord) (h : coord.page.getD 1 ≤ 0)
    (cfgs1 cfgs2 : List CompanyConfig) (c : Option String)
    (its : Option (List (String × List String))) (pre post : List Coord) :
    detect_company (cfgs1 ++ CompanyConfig.mk c (some (pre ++ coord :: post)) its :: cfgs2) doc
      = detect_company (cfgs1 ++ CompanyConfig.mk c (some (pre ++ post)) its :: cfgs2) doc := by
  induction cfgs1 with
  | nil =>
    simp only [List.nil_append, detect_company, Option.getD_some]
    rw [scanCoords_skip doc coord h]
  | cons cfg rest ih =>
    simp only [List.cons_append, detect_company]
    cases scanCoords doc (cfg.company.getD "") (cfg.coordinates.getD []) with
    | none => exact ih
    | some x => rfl

/-- C9: for a configured region whose page number is 0 or negative — so
the computed zero-based index is below 0 — region extraction answers
page-absent (never an end-relative page), and both the region loop and
`detect_company` behave as if the region were not configured at all. -/
theorem C9_nonpositive_page_skipped (doc : PDFDoc) (coord : Coord)
    (h : coord.page.getD 1 ≤ 0) :
    extract_text_from_region doc (coordBBox coord) (coordPageIdx coord) = none
    ∧ (∀ (name : String) (pre post : List Coord),
        scanCoords doc name (pre ++ coord :: post) = scanCoords doc name (pre ++ post))
    ∧ (∀ (cfgs1 cfgs2 : List CompanyConfig) (c : Option String)
        (its : Option (List (String × List String))) (pre post : List Coord),
        detect_company (cfgs1 ++ CompanyConfig.mk c (some (pre ++ coord :: post)) its :: cfgs2) doc
          = detect_company (cfgs1 ++ CompanyConfig.mk c (some (pre ++ post)) its :: cfgs2) doc) :=
  ⟨extract_negative_page doc _ _ (by simp only [coordPageIdx]; omega),
   fun name pre post => scanCoords_skip doc coord h name pre post,
   fun cfgs1 cfgs2 c its pre post => detect_company_skip doc coord h cfgs1 cfgs2 c its pre post⟩

/-- A coordinate object declaring page 0 (below the 1-indexed range). -/
def coordZ : Coord := { page := some 0 }

/-- Witness for C9: the page-0 coordinate is nonpositive and its
extraction on `docA` answers page-absent. -/
theorem C9_nonpositive_page_skipped_witness :
    coordZ.page.getD 1 ≤ 0
    ∧ extract_text_from_region docA (coordBBox coordZ) (coordPageIdx coordZ) = none :=
  ⟨by decide, (C9_nonpositive_page_skipped docA coordZ (by decide)).1⟩

/-- C10: the live watch filter accepts the `.pdf` extension
case-insensitively — `/w/Scan.PDF` passes `_is_pdf_in_root`, so create,
modify and delete events for it are processed — while the startup pass
enumerates with the case-sensitive pattern `*.pdf`, so the same file
present at startup is not reconciled and the pass leaves the store
untouched. -/
theorem C10_case_sensitivity_gap :
    is_pdf_in_root "/w" ⟨"/w", "Scan.PDF"⟩ = true
    ∧ (∀ (cfgs : List CompanyConfig) (m : MetaStore) (d : PDFDoc) (hs : String),
        on_created cfgs "/w" m ⟨⟨"/w", "Scan.PDF"⟩, d, hs⟩
          = process_pdf cfgs m ⟨⟨"/w", "Scan.PDF"⟩, d, hs⟩)
    ∧ (∀ (cfgs : List CompanyConfig) (m : MetaStore) (d : PDFDoc) (hs : String),
        on_modified cfgs "/w" m ⟨⟨"/w", "Scan.PDF"⟩, d, hs⟩
          = process_pdf cfgs m ⟨⟨"/w", "Scan.PDF"⟩, d, hs⟩)
    ∧ (∀ m : MetaStore, on_deleted "/w" m ⟨"/w", "Scan.PDF"⟩ = remove m "Scan")
    ∧ globPdf "Scan.PDF" = false
    ∧ globPdf "scan.pdf" = true
    ∧ (∀ (cfgs : List CompanyConfig) (m : MetaStore) (d : PDFDoc) (hs : String),
        process_existing_pdfs cfgs m [⟨⟨"/w", "Scan.PDF"⟩, d, hs⟩] = m) :=
  ⟨by decide,
   fun cfgs m d hs => rfl,
   fun cfgs m d hs => rfl,
   fun m => rfl,
   by decide,
   by decide,
   fun cfgs m d hs => rfl⟩

end PdfWatcher
